import Mathlib

/-!
Shallow embedding of bitcli's `src/wallet.rs` (a minimal Bitcoin CLI wallet).

Machine integers are modelled as `Nat` with explicit `% 2^32` / `% 2^64`
wrapping where the Rust code performs `u32`/`u64` arithmetic (release-mode
wrapping semantics).  Panics (`expect`/`unwrap`) and `Err` returns are both
modelled as `Except` errors, each with a distinct constructor naming the
source location that aborts.  External collaborators — the secp256k1
library, BIP39/BIP32 derivation, address codecs, HTTP — are oracle
parameters (function-valued arguments), so every wallet operation is a pure
function of the wallet, its inputs and the oracles' responses.
-/

namespace Bitcli

/-- Modulus of Rust's `u32` type. -/
def U32 : Nat := 2 ^ 32

/-- Modulus of Rust's `u64` type. -/
def U64 : Nat := 2 ^ 64

/-- Wrapping `u64` subtraction `a - b` for `a, b < U64` (what unchecked Rust
`u64` subtraction computes in release mode when it underflows). -/
def sub64 (a b : Nat) : Nat := (a + U64 - b) % U64

/-- The `bitcoin::Network` enum as matched by `wallet.rs` (`Testnet` and
`Bitcoin` have API URLs, everything else falls to the `_` arm). -/
inductive Network
  | bitcoin
  | testnet
  | signet
  | regtest
deriving DecidableEq, Repr

/-- An address as the wallet stores it: its string rendering (used in API
URLs) and its `script_pubkey` bytes.  Constructed only through the
`p2wpkh` oracle of `Crypto`. -/
structure Address where
  render : String
  script_pubkey : List Nat
deriving DecidableEq, Repr

/-- The `Wallet` struct of `wallet.rs`. -/
structure Wallet where
  private_key : String
  network : Network
  address : Address
  wif_key : String
deriving DecidableEq, Repr

/-- `ChainStats` deserialized from the balance endpoint. -/
structure ChainStats where
  funded_txo_sum : Nat
  spent_txo_sum : Nat
deriving DecidableEq, Repr

/-- `BalanceResponse` from `/api/address/{address}`. -/
structure BalanceResponse where
  chain_stats : ChainStats
deriving DecidableEq, Repr

/-- `UtxoStatus` as deserialized from the UTXO endpoint. -/
structure UtxoStatus where
  confirmed : Bool
  block_height : Option Nat
  block_hash : Option String
  block_time : Option Nat
deriving DecidableEq, Repr

/-- `Utxo` as deserialized from the UTXO endpoint (`value` is `u64`,
`vout` is `u32`). -/
structure Utxo where
  txid : String
  vout : Nat
  value : Nat
  status : UtxoStatus
deriving DecidableEq, Repr

/-- The `Fee` struct: tiered fee rates in sat/byte. -/
structure Fee where
  low : Nat
  medium : Nat
  high : Nat
deriving DecidableEq, Repr

/-- `MempoolFeeResponse` from `/api/v1/fees/recommended`. -/
structure MempoolFeeResponse where
  fastest_fee : Nat
  half_hour_fee : Nat
  hour_fee : Nat
  minimum_fee : Nat
  economy_fee : Nat
deriving DecidableEq, Repr

/-- `bitcoin::OutPoint`. -/
structure OutPoint where
  txid : String
  vout : Nat
deriving DecidableEq, Repr

/-- `bitcoin::TxIn`: a witness is a stack of byte strings. -/
structure TxIn where
  previous_output : OutPoint
  script_sig : List Nat
  sequence : Nat
  witness : List (List Nat)
deriving DecidableEq, Repr

/-- `bitcoin::TxOut` (`value` in sats). -/
structure TxOut where
  value : Nat
  script_pubkey : List Nat
deriving DecidableEq, Repr

/-- `bitcoin::Transaction`. -/
structure Transaction where
  version : Nat
  lock_time : Nat
  input : List TxIn
  output : List TxOut
deriving DecidableEq, Repr

/-- An address freshly parsed from a string, before `require_network`:
its script bytes and, per network, whether it is valid there
(`Address::is_valid_for_network`). -/
structure UncheckedAddress where
  script_pubkey : List Nat
  valid_for : Network → Bool

/-- Every way a wallet operation aborts, one constructor per `Err` return or
`expect`/`unwrap` panic site in `wallet.rs`. -/
inductive WErr
  | invalidNetwork
  | transport
  | decode
  | parseUtxosPanic
  | feeFetchPanic
  | invalidTxidPanic
  | insufficientFunds
  | invalidAddressPanic
  | keyParsePanic
  | sighashOutOfBounds
  | broadcastRejected (msg : String)
deriving DecidableEq, Repr

/-- Outcome of one GET request followed by JSON decoding. -/
inductive HttpOutcome (α : Type)
  | transportError
  | decodeError
  | ok (a : α)

/-- Outcome of the broadcast POST: transport failure, or a response with an
HTTP success flag and a body text. -/
inductive PostOutcome
  | transportError
  | response (success : Bool) (body : String)

/-- The external cryptographic and codec collaborators (secp256k1, BIP39,
BIP32, consensus serialization), bundled as oracles.  Key material is a byte
list; `Option` results model the fallible library calls the wallet
`expect`s/`unwrap`s. -/
structure Crypto where
  parseSecretKey : String → Option (List Nat)
  compressedPublicKey : List Nat → Option (List Nat)
  p2wpkh : List Nat → Network → Address
  privateKeyToString : List Nat → Network → String
  parseMnemonic : String → Option String
  toSeed : String → List Nat
  deriveChild : List Nat → Option (List Nat)
  displaySecret : List Nat → String
  sighash : Transaction → Nat → List Nat → Nat → List Nat
  signEcdsa : List Nat → List Nat → List Nat
  pubkeyBytes : List Nat → List Nat
  consensusSerialize : Transaction → List Nat
  mnemonicFromEntropy : List Nat → Option String

/-- `Wallet::from_private_key`: parses the key, derives the compressed
public key, and stores the P2WPKH address derived with the hard-coded
`Network::Testnet` — while the `network` field keeps the caller's network.
`none` models the two `expect` panics. -/
def from_private_key (c : Crypto) (key : String) (network : Network) :
    Option Wallet :=
  match c.parseSecretKey key with
  | none => none
  | some secret_key =>
    match c.compressedPublicKey secret_key with
    | none => none
    | some compressed_public_key =>
      some { private_key := c.privateKeyToString secret_key network,
             network := network,
             address := c.p2wpkh compressed_public_key Network.testnet,
             wif_key := key }

/-- `Wallet::from_mnemonic`: parse the phrase, derive the seed, derive the
child key at m/84h/0h/0h/0/0 from the master key (built at
`Network::Bitcoin`), render its secret as hex, and defer to
`from_private_key`.  The `save_mnemonic` filesystem side effect is outside
the pure embedding. -/
def from_mnemonic (c : Crypto) (mnemonic_phrase : String) (network : Network) :
    Option Wallet :=
  match c.parseMnemonic mnemonic_phrase with
  | none => none
  | some mnemonic =>
    match c.deriveChild (c.toSeed mnemonic) with
    | none => none
    | some child_priv_key =>
      from_private_key c (c.displaySecret child_priv_key) network

/-- `Wallet::create`: fresh 16-byte entropy (here a parameter) to a mnemonic,
then `from_mnemonic`. -/
def create (c : Crypto) (entropy : List Nat) (network : Network) :
    Option Wallet :=
  match c.mnemonicFromEntropy entropy with
  | none => none
  | some mnemonic => from_mnemonic c mnemonic network

/-- `Wallet::get_api_url`: only `Testnet` and `Bitcoin` have a base URL;
every other network falls through to the empty string. -/
def get_api_url (network : Network) : String :=
  match network with
  | Network.testnet => "https://mempool.space/testnet4"
  | Network.bitcoin => "https://mempool.space"
  | _ => ""

/-- URL of the balance endpoint for this wallet's stored address. -/
def balance_url (w : Wallet) : String :=
  get_api_url w.network ++ "/api/address/" ++ w.address.render

/-- URL of the UTXO endpoint for this wallet's stored address. -/
def utxo_url (w : Wallet) : String :=
  get_api_url w.network ++ "/api/address/" ++ w.address.render ++ "/utxo"

/-- `Wallet::get_balance`: empty API URL aborts first; otherwise the balance
is `funded_txo_sum - spent_txo_sum` by unchecked (wrapping) `u64`
subtraction. -/
def get_balance (http : String → HttpOutcome BalanceResponse) (w : Wallet) :
    Except WErr Nat :=
  let api_url := get_api_url w.network
  if api_url.isEmpty then Except.error WErr.invalidNetwork
  else
    match http (api_url ++ "/api/address/" ++ w.address.render) with
    | HttpOutcome.transportError => Except.error WErr.transport
    | HttpOutcome.decodeError => Except.error WErr.decode
    | HttpOutcome.ok data =>
      Except.ok (sub64 data.chain_stats.funded_txo_sum data.chain_stats.spent_txo_sum)

/-- `Wallet::fetch_utxos`: empty API URL aborts first; transport errors
propagate, a decode failure is the `expect("Failed to parse utxos")`
panic. -/
def fetch_utxos (http : String → HttpOutcome (List Utxo)) (w : Wallet) :
    Except WErr (List Utxo) :=
  let api_url := get_api_url w.network
  if api_url.isEmpty then Except.error WErr.invalidNetwork
  else
    match http (api_url ++ "/api/address/" ++ w.address.render ++ "/utxo") with
    | HttpOutcome.transportError => Except.error WErr.transport
    | HttpOutcome.decodeError => Except.error WErr.parseUtxosPanic
    | HttpOutcome.ok data => Except.ok data

/-- `Wallet::fetch_fee_rates`: maps the mempool tiers to
`{low := minimum, medium := halfHour, high := fastest}`. -/
def fetch_fee_rates (http : String → HttpOutcome MempoolFeeResponse)
    (w : Wallet) : Except WErr Fee :=
  let api_url := get_api_url w.network
  if api_url.isEmpty then Except.error WErr.invalidNetwork
  else
    match http (api_url ++ "/api/v1/fees/recommended") with
    | HttpOutcome.transportError => Except.error WErr.transport
    | HttpOutcome.decodeError => Except.error WErr.decode
    | HttpOutcome.ok data =>
      Except.ok { low := data.minimum_fee, medium := data.half_hour_fee,
                  high := data.fastest_fee }

/-- `Wallet::estimate_tx_size`: `10 + inputs*148 + outputs*34` in `u32`
arithmetic. -/
def estimate_tx_size (inputs : Nat) (outputs : Nat) : Nat :=
  (10 + inputs * 148 + outputs * 34) % U32

/-- The fee `build_tx` charges: `fee_rate.high * estimate_tx_size(len as u32, 2)`
in `u32` arithmetic (the `usize` length is truncated by the `as u32` cast). -/
def build_fee (fee_rate : Fee) (n : Nat) : Nat :=
  (fee_rate.high * estimate_tx_size (n % U32) 2) % U32

/-- Validity domain of `bitcoin::Txid::from_str`: exactly 64 hex digits. -/
def isHexDigitChar (ch : Char) : Bool :=
  (Char.ofNat 48 ≤ ch && ch ≤ Char.ofNat 57) ||
  (Char.ofNat 97 ≤ ch && ch ≤ Char.ofNat 102) ||
  (Char.ofNat 65 ≤ ch && ch ≤ Char.ofNat 70)

/-- A txid string `Txid::from_str` accepts (otherwise the `unwrap` in
`build_tx`'s input map panics). -/
def txidValid (s : String) : Bool :=
  s.length == 64 && s.data.all isHexDigitChar

/-- `Sequence::ENABLE_RBF_NO_LOCKTIME` = `0xFFFFFFFD`. -/
def sequenceEnableRbfNoLocktime : Nat := 4294967293

/-- The `TxIn` `build_tx` constructs for one UTXO: empty script, RBF
sequence, empty witness. -/
def mkInput (utxo : Utxo) : TxIn :=
  { previous_output := { txid := utxo.txid, vout := utxo.vout },
    script_sig := [],
    sequence := sequenceEnableRbfNoLocktime,
    witness := [] }

/-- The input-building map of `build_tx`: parses each txid (`none` models the
`unwrap` panic on an invalid one) and builds the `TxIn`s in UTXO order. -/
def buildInputs : List Utxo → Option (List TxIn)
  | [] => some []
  | utxo :: rest =>
    if txidValid utxo.txid then
      match buildInputs rest with
      | none => none
      | some ins => some (mkInput utxo :: ins)
    else none

/-- `total_utxos_value` as `build_tx` accumulates it: a running `u64` sum
(wrapping at each step). -/
def totalValue (utxos : List Utxo) : Nat :=
  utxos.foldl (fun acc u => (acc + u.value) % U64) 0

/-- The exact (unwrapped) sum of the UTXO values, for stating properties. -/
def sumValues (utxos : List Utxo) : Nat :=
  utxos.foldl (fun acc u => acc + u.value) 0

/-- `Wallet::build_tx`.  Order of effects follows the source: fee-rate fetch
(`expect` panic on any failure), input construction with txid parsing and
value accumulation, the insufficient-funds check, then recipient address
parsing and network validation (`expect("Invalid address")` panics on either
failure), and finally the two-output transaction. -/
def build_tx (feeHttp : String → HttpOutcome MempoolFeeResponse)
    (parseAddr : String → Option UncheckedAddress) (w : Wallet)
    (to_addr : String) (amount : Nat) (utxos : List Utxo) :
    Except WErr Transaction :=
  match fetch_fee_rates feeHttp w with
  | Except.error _ => Except.error WErr.feeFetchPanic
  | Except.ok fee_rate =>
    let fee := build_fee fee_rate utxos.length
    match buildInputs utxos with
    | none => Except.error WErr.invalidTxidPanic
    | some inputs =>
      let total_utxos_value := totalValue utxos
      if (amount + fee) % U64 > total_utxos_value then
        Except.error WErr.insufficientFunds
      else
        let change := sub64 (sub64 total_utxos_value amount) fee
        match parseAddr to_addr with
        | none => Except.error WErr.invalidAddressPanic
        | some recipient_address =>
          if recipient_address.valid_for w.network then
            Except.ok
              { version := 2,
                lock_time := 0,
                input := inputs,
                output :=
                  [{ value := amount,
                     script_pubkey := recipient_address.script_pubkey },
                   { value := change,
                     script_pubkey := w.address.script_pubkey }] }
          else Except.error WErr.invalidAddressPanic

/-- `EcdsaSighashType::All as u8` — the byte appended to the DER
signature. -/
def sighashAllByte : Nat := 1

/-- `Witness::push` on input `index`: appends one item to that input's
witness stack (the source's `witness_mut(index).unwrap().push(item)`; an
out-of-range index is excluded by the bounds check made just before in
`sign_tx`). -/
def pushWitness (tx : Transaction) (index : Nat) (item : List Nat) :
    Transaction :=
  match tx.input[index]? with
  | none => tx
  | some txin =>
    { tx with
      input := tx.input.set index { txin with witness := txin.witness ++ [item] } }

/-- A transaction with every witness stack emptied.  The BIP143 sighash never
depends on witness data, so the embedding feeds the sighash oracle this
witness-stripped view: it is invariant across the signing loop, exactly as
the real `p2wpkh_signature_hash` is. -/
def clearWitnesses (tx : Transaction) : Transaction :=
  { tx with input := tx.input.map (fun i => { i with witness := [] }) }

/-- The signing loop of `Wallet::sign_tx` over `utxos.iter().enumerate()`:
per input, the BIP143 P2WPKH sighash (parameterized by the index, the
wallet's own script-pubkey, and the UTXO's value, with SIGHASH_ALL), the DER
signature with the sighash byte appended, then the 33-byte compressed public
key, pushed in that order onto the input's witness.  An index at or past the
input count is the library's out-of-bounds error (propagated by `?`). -/
def sign_inputs (c : Crypto) (w : Wallet) (secret_key : List Nat) :
    Transaction → Nat → List Utxo → Except WErr Transaction
  | tx, _, [] => Except.ok tx
  | tx, index, utxo :: rest =>
    if index < tx.input.length then
      let sighash :=
        c.sighash (clearWitnesses tx) index w.address.script_pubkey utxo.value
      let sig_with_hashtype := c.signEcdsa secret_key sighash ++ [sighashAllByte]
      let public_key_bytes := c.pubkeyBytes secret_key
      let tx2 := pushWitness (pushWitness tx index sig_with_hashtype) index
        public_key_bytes
      sign_inputs c w secret_key tx2 (index + 1) rest
    else Except.error WErr.sighashOutOfBounds

/-- `Wallet::sign_tx`: parse the stored key (`unwrap` panic on failure), then
run the signing loop from index 0. -/
def sign_tx (c : Crypto) (w : Wallet) (tx : Transaction) (utxos : List Utxo) :
    Except WErr Transaction :=
  match c.parseSecretKey w.wif_key with
  | none => Except.error WErr.keyParsePanic
  | some secret_key => sign_inputs c w secret_key tx 0 utxos

/-- One hex digit (lower case), as `hex::encode` renders it. -/
def hexChar (n : Nat) : Char :=
  if n < 10 then Char.ofNat (48 + n) else Char.ofNat (87 + n)

/-- `hex::encode` over a byte list. -/
def hexEncode (bytes : List Nat) : String :=
  String.mk (bytes.foldr
    (fun b acc => hexChar (b / 16 % 16) :: hexChar (b % 16) :: acc) [])

/-- `Wallet::broadcast`: empty API URL aborts first; the transaction is
consensus-serialized, hex-encoded and POSTed; an HTTP-success response body
is the txid, a failure body is surfaced in the rejection error. -/
def broadcast (c : Crypto) (post : String → String → PostOutcome)
    (w : Wallet) (tx : Transaction) : Except WErr String :=
  let api_url := get_api_url w.network
  if api_url.isEmpty then Except.error WErr.invalidNetwork
  else
    let raw_tx_hex := hexEncode (c.consensusSerialize tx)
    match post (api_url ++ "/api/tx") raw_tx_hex with
    | PostOutcome.transportError => Except.error WErr.transport
    | PostOutcome.response true txid => Except.ok txid
    | PostOutcome.response false error_message =>
      Except.error (WErr.broadcastRejected error_message)

/-- `Wallet::send`: fetch UTXOs, build, sign, broadcast — each `?` returning
the first failure. -/
def send (c : Crypto) (utxoHttp : String → HttpOutcome (List Utxo))
    (feeHttp : String → HttpOutcome MempoolFeeResponse)
    (parseAddr : String → Option UncheckedAddress)
    (post : String → String → PostOutcome)
    (w : Wallet) (to_addr : String) (amount : Nat) : Except WErr String :=
  match fetch_utxos utxoHttp w with
  | Except.error e => Except.error e
  | Except.ok utxos =>
    match build_tx feeHttp parseAddr w to_addr amount utxos with
    | Except.error e => Except.error e
    | Except.ok tx =>
      match sign_tx c w tx utxos with
      | Except.error e => Except.error e
      | Except.ok signed_tx => broadcast c post w signed_tx

/-- The four stages of a `send`, in pipeline order. -/
inductive Stage
  | fetchUtxosStage
  | buildStage
  | signStage
  | broadcastStage
deriving DecidableEq, Repr

/-- The stages a `send` call enters, in order: a stage is recorded exactly
when `send`'s control flow reaches it, so the list mirrors the `?`
cascade in the source. -/
def sendStages (c : Crypto) (utxoHttp : String → HttpOutcome (List Utxo))
    (feeHttp : String → HttpOutcome MempoolFeeResponse)
    (parseAddr : String → Option UncheckedAddress)
    (_post : String → String → PostOutcome)
    (w : Wallet) (to_addr : String) (amount : Nat) : List Stage :=
  Stage.fetchUtxosStage ::
    match fetch_utxos utxoHttp w with
    | Except.error _ => []
    | Except.ok utxos =>
      Stage.buildStage ::
        match build_tx feeHttp parseAddr w to_addr amount utxos with
        | Except.error _ => []
        | Except.ok tx =>
          Stage.signStage ::
            match sign_tx c w tx utxos with
            | Except.error _ => []
            | Except.ok _ => [Stage.broadcastStage]

/-! Concrete instances used to evaluate the theorems on closed inputs. -/

/-- A concrete address. -/
def addrEx : Address :=
  { render := "tb1qw508d6qejxtdg4y5r3zarvary0c5xw7kxpjzsx",
    script_pubkey := [0, 20, 1, 2, 3] }

/-- A concrete testnet-configured wallet. -/
def walletEx : Wallet :=
  { private_key := "cVt4o7BGAig1UXywgGSmARhxMdzP5qvQsxKkSsc1XEkw3tDTQFpy",
    network := Network.testnet,
    address := addrEx,
    wif_key := "0000000000000000000000000000000000000000000000000000000000000001" }

/-- A concrete crypto oracle: schematic but total, enough to run the
pipeline on closed inputs. -/
def cryptoEx : Crypto :=
  { parseSecretKey := fun _ => some [7],
    compressedPublicKey := fun sk => some (2 :: sk),
    p2wpkh := fun pk _ => { render := "tb1q", script_pubkey := 0 :: pk },
    privateKeyToString := fun _ _ => "wif",
    parseMnemonic := fun s => some s,
    toSeed := fun _ => [1, 2],
    deriveChild := fun _ => some [9],
    displaySecret := fun _ => "09",
    sighash := fun _ index _ value => [index, value],
    signEcdsa := fun sk h => 48 :: sk ++ h,
    pubkeyBytes := fun _ => List.replicate 33 2,
    consensusSerialize := fun _ => [],
    mnemonicFromEntropy := fun _ => some "abandon" }

/-- A 64-hex-digit txid. -/
def txidEx : String :=
  "0000000000000000000000000000000000000000000000000000000000000000"

/-- A confirmed 100000-sat UTXO (Scenario 1 of the spec). -/
def utxoEx : Utxo :=
  { txid := txidEx, vout := 0, value := 100000,
    status := { confirmed := true, block_height := some 10,
                block_hash := some "0abc", block_time := some 5 } }

/-- A fee-rate oracle answering every GET with `fastestFee = 10`. -/
def feeHttpEx : String → HttpOutcome MempoolFeeResponse := fun _ =>
  HttpOutcome.ok { fastest_fee := 10, half_hour_fee := 5, hour_fee := 4,
                   minimum_fee := 1, economy_fee := 2 }

/-- A recipient-address oracle: one fixed string decodes to a
testnet-only address, one to a mainnet-only address, everything else fails
to decode. -/
def parseAddrEx : String → Option UncheckedAddress := fun s =>
  if s = "tb1recipient" then
    some { script_pubkey := [0, 20, 9],
           valid_for := fun n =>
             match n with
             | Network.testnet => true
             | _ => false }
  else if s = "bc1recipient" then
    some { script_pubkey := [0, 20, 8],
           valid_for := fun n =>
             match n with
             | Network.bitcoin => true
             | _ => false }
  else none

/-- The transaction `build_tx` produces in Scenario 1 of the spec (one
100000-sat UTXO, amount 50000, rate 10, fee 2260, change 47740). -/
def txBuiltEx : Transaction :=
  { version := 2, lock_time := 0,
    input := [mkInput utxoEx],
    output := [{ value := 50000, script_pubkey := [0, 20, 9] },
               { value := 47740, script_pubkey := addrEx.script_pubkey }] }

/-- The transaction `build_tx` produces when the single UTXO exactly covers
`amount + fee` (amount 97740, fee 2260): the change output is emitted with
value 0. -/
def txExactEx : Transaction :=
  { version := 2, lock_time := 0,
    input := [mkInput utxoEx],
    output := [{ value := 97740, script_pubkey := [0, 20, 9] },
               { value := 0, script_pubkey := addrEx.script_pubkey }] }

/-- The transaction `sign_tx` produces from `txBuiltEx` under `cryptoEx`:
the single input's witness is the schematic signature (DER bytes with the
SIGHASH_ALL byte appended) followed by the 33-byte public key. -/
def stxSignedEx : Transaction :=
  { version := 2, lock_time := 0,
    input := [{ previous_output := { txid := txidEx, vout := 0 },
                script_sig := [], sequence := sequenceEnableRbfNoLocktime,
                witness := [[48, 7, 0, 100000, 1], List.replicate 33 2] }],
    output := [{ value := 50000, script_pubkey := [0, 20, 9] },
               { value := 47740, script_pubkey := addrEx.script_pubkey }] }

/-- A wallet whose network field is Signet — a network with no API base
URL. -/
def walletSignetEx : Wallet :=
  { walletEx with network := Network.signet }

/-- A balance oracle whose chain stats have `spent_txo_sum` exceeding
`funded_txo_sum` (the explorer reporting more spent than funded). -/
def balHttpEx : String → HttpOutcome BalanceResponse := fun _ =>
  HttpOutcome.ok { chain_stats := { funded_txo_sum := 100,
                                    spent_txo_sum := 250 } }

end Bitcli

namespace Bitcli

/-! Helper lemmas. -/

/-- A per-step wrapping `u64` sum equals the exact sum reduced once. -/
theorem foldl_wrap_eq (l : List Utxo) :
    ∀ acc : Nat,
      l.foldl (fun a u => (a + u.value) % U64) (acc % U64) =
        (l.foldl (fun a u => a + u.value) acc) % U64 := by
  induction l with
  | nil => intro acc; rfl
  | cons u rest ih =>
    intro acc
    simp only [List.foldl_cons]
    rw [Nat.mod_add_mod, ih (acc + u.value)]

/-- `total_utxos_value` is the exact UTXO-value sum reduced modulo `2^64`. -/
theorem totalValue_eq (utxos : List Utxo) :
    totalValue utxos = sumValues utxos % U64 := by
  have h := foldl_wrap_eq utxos 0
  rwa [Nat.zero_mod] at h

/-- When no txid panics, the input map builds exactly one `TxIn` per UTXO,
in order. -/
theorem buildInputs_eq_map (utxos : List Utxo)
    (htxid : ∀ u ∈ utxos, txidValid u.txid = true) :
    buildInputs utxos = some (utxos.map mkInput) := by
  induction utxos with
  | nil => rfl
  | cons u rest ih =>
    have hu : txidValid u.txid = true := htxid u (List.mem_cons_self u rest)
    have hrest : ∀ v ∈ rest, txidValid v.txid = true := fun v hv =>
      htxid v (List.mem_cons_of_mem u hv)
    simp [buildInputs, hu, ih hrest]

/-- Wrapping `u64` subtraction agrees with exact subtraction when it cannot
underflow. -/
theorem sub64_eq_sub (a b : Nat) (hle : b ≤ a) (ha : a < U64) :
    sub64 a b = a - b := by
  simp only [sub64, U64] at *
  omega

/-- Within `u32` range, `build_tx`'s fee is the exact product of the fastest
fee rate and the estimated size: no wrapping, no rounding beyond the integer
arithmetic itself. -/
theorem build_fee_eq (fee_rate : Fee) (n : Nat) (hn : n < U32)
    (hbound : fee_rate.high * (10 + n * 148 + 68) < U32) :
    build_fee fee_rate n = fee_rate.high * (10 + n * 148 + 68) := by
  have hn' : n % U32 = n := Nat.mod_eq_of_lt hn
  rcases Nat.eq_zero_or_pos fee_rate.high with h0 | hpos
  · simp [build_fee, h0]
  · have hsize : 10 + n * 148 + 68 < U32 := by
      calc 10 + n * 148 + 68 ≤ fee_rate.high * (10 + n * 148 + 68) :=
            Nat.le_mul_of_pos_left _ hpos
        _ < U32 := hbound
    simp only [build_fee, estimate_tx_size, hn']
    rw [show 10 + n * 148 + 2 * 34 = 10 + n * 148 + 68 by norm_num,
      Nat.mod_eq_of_lt hsize, Nat.mod_eq_of_lt hbound]

/-! Claim theorems. -/

/-- C5: `estimateSize(inputs, outputs)` is `10 + 148*inputs + 34*outputs`
(exactly, once within `u32` range), and the fee `build_tx` charges
(`build_fee`, the literal fee expression of `build_tx`) is the truncating
integer product `rate * estimateSize(n, 2)` with no other rounding. -/
theorem C5_fee_formula (inputs outputs : Nat) (fee_rate : Fee) (n : Nat)
    (hio : 10 + inputs * 148 + outputs * 34 < U32)
    (hn : n < U32)
    (hbound : fee_rate.high * (10 + n * 148 + 68) < U32) :
    estimate_tx_size inputs outputs = 10 + 148 * inputs + 34 * outputs ∧
    build_fee fee_rate n = fee_rate.high * estimate_tx_size n 2 ∧
    build_fee fee_rate n = fee_rate.high * (10 + 148 * n + 68) := by
  have hmain := build_fee_eq fee_rate n hn hbound
  refine ⟨?_, ?_, ?_⟩
  · simp only [estimate_tx_size]
    rw [Nat.mod_eq_of_lt hio]
    ring
  · rcases Nat.eq_zero_or_pos fee_rate.high with h0 | hpos
    · simp [build_fee, h0]
    · have hS : 10 + n * 148 + 68 < U32 :=
        lt_of_le_of_lt (Nat.le_mul_of_pos_left _ hpos) hbound
      have hsize2 : estimate_tx_size n 2 = 10 + n * 148 + 68 := by
        simp only [estimate_tx_size]
        rw [show 10 + n * 148 + 2 * 34 = 10 + n * 148 + 68 by norm_num,
          Nat.mod_eq_of_lt hS]
      rw [hmain, hsize2]
  · rw [hmain]
    ring_nf

/-- C5 witness: evaluated at 1 input, 2 outputs, rate 10 (Scenario 1:
`estimateSize(1,2) = 226`, fee `2260`). -/
theorem C5_fee_formula_witness :
    estimate_tx_size 1 2 = 10 + 148 * 1 + 34 * 2 ∧
    build_fee { low := 1, medium := 5, high := 10 } 1 =
      10 * estimate_tx_size 1 2 ∧
    build_fee { low := 1, medium := 5, high := 10 } 1 =
      10 * (10 + 148 * 1 + 68) :=
  C5_fee_formula 1 2 { low := 1, medium := 5, high := 10 } 1
    (by decide) (by decide) (by decide)

/-- C1: with the fee rate fetched, every txid parseable and the `u32`/`u64`
arithmetic in range, `build_tx` fails with `InsufficientFunds` exactly when
`amount + highRate * estimateSize(n, 2)` exceeds the sum of the UTXO values;
its result being an `Except.error` in that case, no transaction is
produced. -/
theorem C1_build_insufficient_funds_iff
    (feeHttp : String → HttpOutcome MempoolFeeResponse)
    (parseAddr : String → Option UncheckedAddress) (w : Wallet)
    (to_addr : String) (amount : Nat) (utxos : List Utxo) (fee_rate : Fee)
    (hfee : fetch_fee_rates feeHttp w = Except.ok fee_rate)
    (htxid : ∀ u ∈ utxos, txidValid u.txid = true)
    (hlen : utxos.length < U32)
    (hbound : fee_rate.high * (10 + utxos.length * 148 + 68) < U32)
    (hsum : sumValues utxos < U64)
    (hamt : amount + fee_rate.high * (10 + utxos.length * 148 + 68) < U64) :
    (build_tx feeHttp parseAddr w to_addr amount utxos =
        Except.error WErr.insufficientFunds ↔
      sumValues utxos <
        amount + fee_rate.high * (10 + utxos.length * 148 + 68)) := by
  have hbi := buildInputs_eq_map utxos htxid
  have hF := build_fee_eq fee_rate utxos.length hlen hbound
  have htot : totalValue utxos = sumValues utxos := by
    rw [totalValue_eq, Nat.mod_eq_of_lt hsum]
  have hwrap : (amount + build_fee fee_rate utxos.length) % U64 =
      amount + fee_rate.high * (10 + utxos.length * 148 + 68) := by
    rw [hF]
    exact Nat.mod_eq_of_lt hamt
  constructor
  · intro h
    simp only [build_tx, hfee, hbi] at h
    rw [hwrap, htot] at h
    split at h
    · assumption
    · rcases hpa : parseAddr to_addr with _ | r
      · rw [hpa] at h
        simp at h
      · rw [hpa] at h
        by_cases hv : r.valid_for w.network
        · simp [hv] at h
        · simp [hv] at h
  · intro h
    simp only [build_tx, hfee, hbi]
    rw [hwrap, htot]
    split
    · rfl
    · omega

/-- C1 witness: Scenario 2 of the spec — one 100000-sat UTXO, amount 99000,
rate 10, so `99000 + 2260 > 100000` and the build is insufficient. -/
theorem C1_build_insufficient_funds_iff_witness :
    (build_tx feeHttpEx parseAddrEx walletEx "tb1recipient" 99000 [utxoEx] =
        Except.error WErr.insufficientFunds ↔
      sumValues [utxoEx] <
        99000 + 10 * (10 + [utxoEx].length * 148 + 68)) :=
  C1_build_insufficient_funds_iff feeHttpEx parseAddrEx walletEx
    "tb1recipient" 99000 [utxoEx]
    { low := 1, medium := 5, high := 10 }
    (by rfl) (by decide) (by decide) (by decide) (by decide) (by decide)

/-- Shape of every successful `build_tx`: the fee fetch succeeded, every
txid parsed, the funds check passed, the recipient parsed and matched the
wallet's network, and the transaction is version 2, locktime 0, with the
built inputs and exactly the payment and change outputs. -/
theorem build_tx_ok
    (feeHttp : String → HttpOutcome MempoolFeeResponse)
    (parseAddr : String → Option UncheckedAddress) (w : Wallet)
    (to_addr : String) (amount : Nat) (utxos : List Utxo) (tx : Transaction)
    (h : build_tx feeHttp parseAddr w to_addr amount utxos = Except.ok tx) :
    ∃ fee_rate ins r,
      fetch_fee_rates feeHttp w = Except.ok fee_rate ∧
      buildInputs utxos = some ins ∧
      parseAddr to_addr = some r ∧
      r.valid_for w.network = true ∧
      ¬ totalValue utxos < (amount + build_fee fee_rate utxos.length) % U64 ∧
      tx = { version := 2, lock_time := 0, input := ins,
             output := [{ value := amount,
                          script_pubkey := r.script_pubkey },
                        { value := sub64 (sub64 (totalValue utxos) amount)
                            (build_fee fee_rate utxos.length),
                          script_pubkey := w.address.script_pubkey }] } := by
  simp only [build_tx] at h
  split at h
  · exact absurd h (by simp)
  next fee_rate hfr =>
    split at h
    · exact absurd h (by simp)
    next ins hbi =>
      split at h
      · exact absurd h (by simp)
      next hc =>
        split at h
        · exact absurd h (by simp)
        next r hpa =>
          split at h
          next hv =>
            exact ⟨fee_rate, ins, r, hfr, hbi, hpa, hv, hc,
              (Except.ok.injEq _ _).mp h.symm⟩
          · exact absurd h (by simp)

/-- C2: every successful `build_tx` has exactly 2 outputs — the payment of
`amount` to the recipient script first, then the change
`totalIn - amount - fee` to the wallet's own script — with
`amount + fee ≤ totalIn` (so the `Nat` change is the exact non-negative
difference) and `totalIn = amount + fee + change`. -/
theorem C2_build_change_equation
    (feeHttp : String → HttpOutcome MempoolFeeResponse)
    (parseAddr : String → Option UncheckedAddress) (w : Wallet)
    (to_addr : String) (amount : Nat) (utxos : List Utxo) (fee_rate : Fee)
    (tx : Transaction)
    (hfee : fetch_fee_rates feeHttp w = Except.ok fee_rate)
    (hlen : utxos.length < U32)
    (hbound : fee_rate.high * (10 + utxos.length * 148 + 68) < U32)
    (hsum : sumValues utxos < U64)
    (hamt : amount + fee_rate.high * (10 + utxos.length * 148 + 68) < U64)
    (hok : build_tx feeHttp parseAddr w to_addr amount utxos = Except.ok tx) :
    tx.output.length = 2 ∧
    (∃ r, parseAddr to_addr = some r ∧
      tx.output =
        [{ value := amount, script_pubkey := r.script_pubkey },
         { value := sumValues utxos - amount -
             fee_rate.high * (10 + utxos.length * 148 + 68),
           script_pubkey := w.address.script_pubkey }]) ∧
    amount + fee_rate.high * (10 + utxos.length * 148 + 68) ≤
      sumValues utxos ∧
    sumValues utxos =
      amount + fee_rate.high * (10 + utxos.length * 148 + 68) +
        (sumValues utxos - amount -
          fee_rate.high * (10 + utxos.length * 148 + 68)) := by
  obtain ⟨fr, ins, r, hfr, hbi, hpa, hv, hc, htx⟩ :=
    build_tx_ok feeHttp parseAddr w to_addr amount utxos tx hok
  have hfr' : fr = fee_rate := by
    rw [hfee] at hfr
    exact ((Except.ok.injEq _ _).mp hfr).symm
  rw [hfr'] at hc htx
  have hF := build_fee_eq fee_rate utxos.length hlen hbound
  have htot : totalValue utxos = sumValues utxos := by
    rw [totalValue_eq, Nat.mod_eq_of_lt hsum]
  rw [htot, hF, Nat.mod_eq_of_lt hamt] at hc
  have hle : amount + fee_rate.high * (10 + utxos.length * 148 + 68) ≤
      sumValues utxos := by omega
  have hchange : sub64 (sub64 (totalValue utxos) amount)
      (build_fee fee_rate utxos.length) =
      sumValues utxos - amount -
        fee_rate.high * (10 + utxos.length * 148 + 68) := by
    rw [htot, hF, sub64_eq_sub _ _ (by omega) hsum,
      sub64_eq_sub _ _ (by omega) (by omega)]
  subst htx
  refine ⟨rfl, ⟨r, hpa, ?_⟩, hle, by omega⟩
  rw [hchange]

/-- C2 witness: Scenario 1 — one 100000-sat UTXO, amount 50000, rate 10,
fee 2260, change 47740, and `100000 = 50000 + 2260 + 47740`. -/
theorem C2_build_change_equation_witness :
    txBuiltEx.output.length = 2 ∧
    (∃ r, parseAddrEx "tb1recipient" = some r ∧
      txBuiltEx.output =
        [{ value := 50000, script_pubkey := r.script_pubkey },
         { value := sumValues [utxoEx] - 50000 -
             10 * (10 + [utxoEx].length * 148 + 68),
           script_pubkey := walletEx.address.script_pubkey }]) ∧
    50000 + 10 * (10 + [utxoEx].length * 148 + 68) ≤ sumValues [utxoEx] ∧
    sumValues [utxoEx] =
      50000 + 10 * (10 + [utxoEx].length * 148 + 68) +
        (sumValues [utxoEx] - 50000 -
          10 * (10 + [utxoEx].length * 148 + 68)) :=
  C2_build_change_equation feeHttpEx parseAddrEx walletEx "tb1recipient"
    50000 [utxoEx] { low := 1, medium := 5, high := 10 } txBuiltEx
    (by rfl) (by decide) (by decide) (by decide) (by decide) (by rfl)

/-- C7: every successful `build_tx` emits the change output as `output[1]`,
paying the wallet's own script — even when the change is 0: if the UTXO set
exactly covers `amount + fee`, the second output is present with value 0
rather than being elided. -/
theorem C7_zero_change_emitted
    (feeHttp : String → HttpOutcome MempoolFeeResponse)
    (parseAddr : String → Option UncheckedAddress) (w : Wallet)
    (to_addr : String) (amount : Nat) (utxos : List Utxo) (fee_rate : Fee)
    (tx : Transaction)
    (hfee : fetch_fee_rates feeHttp w = Except.ok fee_rate)
    (hlen : utxos.length < U32)
    (hbound : fee_rate.high * (10 + utxos.length * 148 + 68) < U32)
    (hsum : sumValues utxos < U64)
    (hamt : amount + fee_rate.high * (10 + utxos.length * 148 + 68) < U64)
    (hok : build_tx feeHttp parseAddr w to_addr amount utxos = Except.ok tx) :
    tx.output.length = 2 ∧
    tx.output[1]? =
      some { value := sumValues utxos - amount -
               fee_rate.high * (10 + utxos.length * 148 + 68),
             script_pubkey := w.address.script_pubkey } ∧
    (sumValues utxos =
        amount + fee_rate.high * (10 + utxos.length * 148 + 68) →
      tx.output[1]? =
        some { value := 0, script_pubkey := w.address.script_pubkey }) := by
  obtain ⟨h2, ⟨r, _, hout⟩, _, _⟩ :=
    C2_build_change_equation feeHttp parseAddr w to_addr amount utxos
      fee_rate tx hfee hlen hbound hsum hamt hok
  refine ⟨h2, ?_, ?_⟩
  · rw [hout]
    rfl
  · intro hexact
    rw [hout]
    simp only [List.getElem?_cons_succ, List.getElem?_cons_zero,
      Option.some.injEq]
    congr 1
    omega

/-- C7 witness: a single 100000-sat UTXO exactly covering
`97740 + 2260`, so the emitted change output has value 0. -/
theorem C7_zero_change_emitted_witness :
    txExactEx.output.length = 2 ∧
    txExactEx.output[1]? =
      some { value := sumValues [utxoEx] - 97740 -
               10 * (10 + [utxoEx].length * 148 + 68),
             script_pubkey := walletEx.address.script_pubkey } ∧
    (sumValues [utxoEx] = 97740 + 10 * (10 + [utxoEx].length * 148 + 68) →
      txExactEx.output[1]? =
        some { value := 0,
               script_pubkey := walletEx.address.script_pubkey }) :=
  C7_zero_change_emitted feeHttpEx parseAddrEx walletEx "tb1recipient"
    97740 [utxoEx] { low := 1, medium := 5, high := 10 } txExactEx
    (by rfl) (by decide) (by decide) (by decide) (by decide) (by rfl)

/-- C6: when the UTXO set covers `amount + fee` (with the fee rate fetched,
txids parseable and arithmetic in range), a recipient string that fails to
decode, or decodes to an address not valid for the wallet's configured
network — a mainnet address on a testnet wallet in particular — makes
`build_tx` fail with the `InvalidAddress` abort, producing no
transaction. -/
theorem C6_build_invalid_address
    (feeHttp : String → HttpOutcome MempoolFeeResponse)
    (parseAddr : String → Option UncheckedAddress) (w : Wallet)
    (to_addr : String) (amount : Nat) (utxos : List Utxo) (fee_rate : Fee)
    (hfee : fetch_fee_rates feeHttp w = Except.ok fee_rate)
    (htxid : ∀ u ∈ utxos, txidValid u.txid = true)
    (hlen : utxos.length < U32)
    (hbound : fee_rate.high * (10 + utxos.length * 148 + 68) < U32)
    (hsum : sumValues utxos < U64)
    (hamt : amount + fee_rate.high * (10 + utxos.length * 148 + 68) < U64)
    (hcover : amount + fee_rate.high * (10 + utxos.length * 148 + 68) ≤
      sumValues utxos)
    (hbad : parseAddr to_addr = none ∨
      ∃ r, parseAddr to_addr = some r ∧ r.valid_for w.network = false) :
    build_tx feeHttp parseAddr w to_addr amount utxos =
      Except.error WErr.invalidAddressPanic := by
  have hbi := buildInputs_eq_map utxos htxid
  have hF := build_fee_eq fee_rate utxos.length hlen hbound
  have htot : totalValue utxos = sumValues utxos := by
    rw [totalValue_eq, Nat.mod_eq_of_lt hsum]
  have hwrap : (amount + build_fee fee_rate utxos.length) % U64 =
      amount + fee_rate.high * (10 + utxos.length * 148 + 68) := by
    rw [hF]
    exact Nat.mod_eq_of_lt hamt
  simp only [build_tx, hfee, hbi]
  rw [hwrap, htot]
  rw [if_neg (by omega)]
  rcases hbad with hnone | ⟨r, hpa, hv⟩
  · rw [hnone]
  · rw [hpa]
    simp [hv]

/-- C6 witness: Scenario 4 — a mainnet-only recipient address supplied to
the testnet-configured wallet, funds covering, yields the invalid-address
abort. -/
theorem C6_build_invalid_address_witness :
    build_tx feeHttpEx parseAddrEx walletEx "bc1recipient" 50000 [utxoEx] =
      Except.error WErr.invalidAddressPanic :=
  C6_build_invalid_address feeHttpEx parseAddrEx walletEx "bc1recipient"
    50000 [utxoEx] { low := 1, medium := 5, high := 10 }
    (by rfl) (by decide) (by decide) (by decide) (by decide) (by decide)
    (by decide)
    (Or.inr ⟨{ script_pubkey := [0, 20, 8],
               valid_for := fun n =>
                 match n with
                 | Network.bitcoin => true
                 | _ => false },
      by rfl, by rfl⟩)

/-- C9: on any network other than Bitcoin mainnet and Testnet, every
network-consuming operation — balance, UTXO fetch, fee-rate fetch,
broadcast — fails with the unsupported-network error (`"Invalid network"`
in the source), whatever the HTTP oracles would answer: no API call is
consulted. -/
theorem C9_unsupported_network
    (net : Network) (w : Wallet) (c : Crypto)
    (balHttp : String → HttpOutcome BalanceResponse)
    (utxoHttp : String → HttpOutcome (List Utxo))
    (feeHttp : String → HttpOutcome MempoolFeeResponse)
    (post : String → String → PostOutcome) (tx : Transaction)
    (hnet : net ≠ Network.bitcoin ∧ net ≠ Network.testnet)
    (hw : w.network = net) :
    get_balance balHttp w = Except.error WErr.invalidNetwork ∧
    fetch_utxos utxoHttp w = Except.error WErr.invalidNetwork ∧
    fetch_fee_rates feeHttp w = Except.error WErr.invalidNetwork ∧
    broadcast c post w tx = Except.error WErr.invalidNetwork := by
  obtain ⟨hb, ht⟩ := hnet
  have hurl : get_api_url w.network = "" := by
    rw [hw]
    cases net with
    | bitcoin => exact absurd rfl hb
    | testnet => exact absurd rfl ht
    | signet => rfl
    | regtest => rfl
  refine ⟨?_, ?_, ?_, ?_⟩ <;>
    simp [get_balance, fetch_utxos, fetch_fee_rates, broadcast, hurl,
      String.isEmpty]

/-- C9 witness: a Signet-configured wallet, each operation refusing with
the unsupported-network error regardless of the oracles. -/
theorem C9_unsupported_network_witness :
    get_balance balHttpEx walletSignetEx =
      Except.error WErr.invalidNetwork ∧
    fetch_utxos (fun _ => HttpOutcome.ok []) walletSignetEx =
      Except.error WErr.invalidNetwork ∧
    fetch_fee_rates feeHttpEx walletSignetEx =
      Except.error WErr.invalidNetwork ∧
    broadcast cryptoEx (fun _ body => PostOutcome.response true body)
      walletSignetEx txBuiltEx = Except.error WErr.invalidNetwork :=
  C9_unsupported_network Network.signet walletSignetEx cryptoEx
    balHttpEx (fun _ => HttpOutcome.ok []) feeHttpEx
    (fun _ body => PostOutcome.response true body) txBuiltEx
    (by decide) (by rfl)

/-- C10: `get_balance` subtracts `spent_txo_sum` from `funded_txo_sum` by
unchecked `u64` subtraction: when `spent ≤ funded` it returns the exact
difference, and when `spent > funded` it wraps around to
`2^64 - (spent - funded)` — still an `Except.ok`, not an error; the error
branch is reachable only on transport or decode failure (or an unsupported
network). -/
theorem C10_balance_unchecked_sub
    (http : String → HttpOutcome BalanceResponse) (w : Wallet)
    (resp : BalanceResponse)
    (hw : w.network = Network.bitcoin ∨ w.network = Network.testnet)
    (hresp : http (balance_url w) = HttpOutcome.ok resp)
    (hf : resp.chain_stats.funded_txo_sum < U64)
    (hs : resp.chain_stats.spent_txo_sum < U64) :
    (resp.chain_stats.spent_txo_sum ≤ resp.chain_stats.funded_txo_sum →
      get_balance http w = Except.ok
        (resp.chain_stats.funded_txo_sum -
          resp.chain_stats.spent_txo_sum)) ∧
    (resp.chain_stats.funded_txo_sum < resp.chain_stats.spent_txo_sum →
      get_balance http w = Except.ok
        (U64 - (resp.chain_stats.spent_txo_sum -
          resp.chain_stats.funded_txo_sum))) ∧
    (∀ (http2 : String → HttpOutcome BalanceResponse) (e : WErr),
      get_balance http2 w = Except.error e →
      e = WErr.transport ∨ e = WErr.decode) := by
  have hne : (get_api_url w.network).isEmpty = false := by
    rcases hw with hw | hw <;> rw [hw] <;> rfl
  have hrun : get_balance http w = Except.ok
      (sub64 resp.chain_stats.funded_txo_sum
        resp.chain_stats.spent_txo_sum) := by
    simp only [get_balance]
    rw [if_neg (by simp [hne])]
    simp only [balance_url] at hresp
    rw [hresp]
  refine ⟨?_, ?_, ?_⟩
  · intro hle
    rw [hrun, sub64_eq_sub _ _ hle hf]
  · intro hlt
    rw [hrun]
    have : sub64 resp.chain_stats.funded_txo_sum
        resp.chain_stats.spent_txo_sum =
        U64 - (resp.chain_stats.spent_txo_sum -
          resp.chain_stats.funded_txo_sum) := by
      simp only [sub64, U64] at *
      omega
    rw [this]
  · intro http2 e he
    simp only [get_balance] at he
    rw [if_neg (by simp [hne])] at he
    rcases hh : http2 (get_api_url w.network ++ "/api/address/" ++
        w.address.render) with _ | _ | d
    · rw [hh] at he
      left
      exact (((Except.error.injEq _ _).mp he)).symm
    · rw [hh] at he
      right
      exact (((Except.error.injEq _ _).mp he)).symm
    · rw [hh] at he
      exact absurd he (by simp)

/-- C10 witness: a response with `funded = 100`, `spent = 250` on the
testnet wallet — the subtraction underflows to `2^64 - 150` and is still
returned as a success. -/
theorem C10_balance_unchecked_sub_witness :
    (250 ≤ 100 →
      get_balance balHttpEx walletEx = Except.ok (100 - 250)) ∧
    (100 < 250 →
      get_balance balHttpEx walletEx = Except.ok (U64 - (250 - 100))) ∧
    (∀ (http2 : String → HttpOutcome BalanceResponse) (e : WErr),
      get_balance http2 walletEx = Except.error e →
      e = WErr.transport ∨ e = WErr.decode) :=
  C10_balance_unchecked_sub balHttpEx walletEx
    { chain_stats := { funded_txo_sum := 100, spent_txo_sum := 250 } }
    (Or.inr rfl) (by rfl) (by decide) (by decide)

/-- C8: `send` runs fetch-UTXOs, build, sign, broadcast strictly in that
order: the stages entered are always a prefix of the full pipeline, the
first failing stage's error is returned (whatever the later-stage oracles
would answer, so no later stage runs), and each stage appears at most once
(no retry or fallback). -/
theorem C8_send_pipeline_order
    (c : Crypto) (utxoHttp : String → HttpOutcome (List Utxo))
    (feeHttp : String → HttpOutcome MempoolFeeResponse)
    (parseAddr : String → Option UncheckedAddress)
    (post : String → String → PostOutcome)
    (w : Wallet) (to_addr : String) (amount : Nat) :
    ([Stage.fetchUtxosStage, Stage.buildStage, Stage.signStage,
        Stage.broadcastStage].take
      (sendStages c utxoHttp feeHttp parseAddr post w to_addr
        amount).length =
      sendStages c utxoHttp feeHttp parseAddr post w to_addr amount) ∧
    (∀ e, fetch_utxos utxoHttp w = Except.error e →
      send c utxoHttp feeHttp parseAddr post w to_addr amount =
        Except.error e ∧
      sendStages c utxoHttp feeHttp parseAddr post w to_addr amount =
        [Stage.fetchUtxosStage]) ∧
    (∀ utxos e, fetch_utxos utxoHttp w = Except.ok utxos →
      build_tx feeHttp parseAddr w to_addr amount utxos = Except.error e →
      send c utxoHttp feeHttp parseAddr post w to_addr amount =
        Except.error e ∧
      sendStages c utxoHttp feeHttp parseAddr post w to_addr amount =
        [Stage.fetchUtxosStage, Stage.buildStage]) ∧
    (∀ utxos tx e, fetch_utxos utxoHttp w = Except.ok utxos →
      build_tx feeHttp parseAddr w to_addr amount utxos = Except.ok tx →
      sign_tx c w tx utxos = Except.error e →
      send c utxoHttp feeHttp parseAddr post w to_addr amount =
        Except.error e ∧
      sendStages c utxoHttp feeHttp parseAddr post w to_addr amount =
        [Stage.fetchUtxosStage, Stage.buildStage, Stage.signStage]) ∧
    (∀ utxos tx stx, fetch_utxos utxoHttp w = Except.ok utxos →
      build_tx feeHttp parseAddr w to_addr amount utxos = Except.ok tx →
      sign_tx c w tx utxos = Except.ok stx →
      send c utxoHttp feeHttp parseAddr post w to_addr amount =
        broadcast c post w stx ∧
      sendStages c utxoHttp feeHttp parseAddr post w to_addr amount =
        [Stage.fetchUtxosStage, Stage.buildStage, Stage.signStage,
          Stage.broadcastStage]) := by
  refine ⟨?_, ?_, ?_, ?_, ?_⟩
  · rcases h1 : fetch_utxos utxoHttp w with e | utxos
    · simp [sendStages, h1]
    · rcases h2 : build_tx feeHttp parseAddr w to_addr amount utxos
        with e | tx
      · simp [sendStages, h1, h2]
      · rcases h3 : sign_tx c w tx utxos with e | stx
        · simp [sendStages, h1, h2, h3]
        · simp [sendStages, h1, h2, h3]
  · intro e h1
    exact ⟨by simp [send, h1], by simp [sendStages, h1]⟩
  · intro utxos e h1 h2
    exact ⟨by simp [send, h1, h2], by simp [sendStages, h1, h2]⟩
  · intro utxos tx e h1 h2 h3
    exact ⟨by simp [send, h1, h2, h3], by simp [sendStages, h1, h2, h3]⟩
  · intro utxos tx stx h1 h2 h3
    exact ⟨by simp [send, h1, h2, h3], by simp [sendStages, h1, h2, h3]⟩

/-- Pushing a witness item never changes the input count. -/
theorem pushWitness_length (tx : Transaction) (k : Nat) (item : List Nat) :
    (pushWitness tx k item).input.length = tx.input.length := by
  cases h : tx.input[k]? with
  | none => simp [pushWitness, h]
  | some t => simp [pushWitness, h]

/-- Pushing a witness item never changes the outputs. -/
theorem pushWitness_output (tx : Transaction) (k : Nat) (item : List Nat) :
    (pushWitness tx k item).output = tx.output := by
  cases h : tx.input[k]? with
  | none => simp [pushWitness, h]
  | some t => simp [pushWitness, h]

/-- Pushing a witness item never changes the version. -/
theorem pushWitness_version (tx : Transaction) (k : Nat) (item : List Nat) :
    (pushWitness tx k item).version = tx.version := by
  cases h : tx.input[k]? with
  | none => simp [pushWitness, h]
  | some t => simp [pushWitness, h]

/-- Pushing a witness item never changes the locktime. -/
theorem pushWitness_lock_time (tx : Transaction) (k : Nat) (item : List Nat) :
    (pushWitness tx k item).lock_time = tx.lock_time := by
  cases h : tx.input[k]? with
  | none => simp [pushWitness, h]
  | some t => simp [pushWitness, h]

/-- Inputs other than the pushed-to one are untouched. -/
theorem pushWitness_getElem_ne (tx : Transaction) (k : Nat) (item : List Nat)
    (j : Nat) (hne : j ≠ k) :
    (pushWitness tx k item).input[j]? = tx.input[j]? := by
  cases h : tx.input[k]? with
  | none => simp [pushWitness, h]
  | some t => simp [pushWitness, h, List.getElem?_set_ne (Ne.symm hne)]

/-- The pushed-to input gains exactly the pushed item at the end of its
witness stack. -/
theorem pushWitness_getElem_eq (tx : Transaction) (k : Nat) (item : List Nat)
    (t : TxIn) (h : tx.input[k]? = some t) :
    (pushWitness tx k item).input[k]? =
      some { t with witness := t.witness ++ [item] } := by
  have hk : k < tx.input.length := (List.getElem?_eq_some.mp h).1
  simp [pushWitness, h, List.getElem?_set_eq_of_lt _ hk]

/-- Pushing a witness item does not change the witness-stripped view of the
transaction (which is what the sighash depends on). -/
theorem clearWitnesses_pushWitness (tx : Transaction) (k : Nat)
    (item : List Nat) :
    clearWitnesses (pushWitness tx k item) = clearWitnesses tx := by
  cases h : tx.input[k]? with
  | none => simp [pushWitness, h]
  | some t =>
    have hk : k < tx.input.length := (List.getElem?_eq_some.mp h).1
    simp only [pushWitness, h, clearWitnesses]
    congr 1
    apply List.ext_getElem?
    intro j
    by_cases hjk : j = k
    · subst hjk
      rw [List.getElem?_map, List.getElem?_map,
        List.getElem?_set_eq_of_lt _ hk, h]
      rfl
    · rw [List.getElem?_map, List.getElem?_map,
        List.getElem?_set_ne (Ne.symm hjk)]

/-- Invariant of the signing loop: a successful `sign_inputs` run from index
`k` preserves the input count, outputs, version, locktime and the
witness-stripped view; leaves inputs before `k` and at or past
`k + utxos.length` untouched; and gives the input at `k + i` (for the
`i`-th remaining UTXO) exactly its old witness extended by the DER signature
with the SIGHASH_ALL byte and then the compressed public key, the signature
being over the sighash at that index, the wallet's own script, and that
UTXO's value. -/
theorem sign_inputs_ok_spec (c : Crypto) (w : Wallet) (sk : List Nat) :
    ∀ (rest : List Utxo) (tx : Transaction) (k : Nat) (stx : Transaction),
      sign_inputs c w sk tx k rest = Except.ok stx →
      stx.input.length = tx.input.length ∧
      stx.output = tx.output ∧
      stx.version = tx.version ∧
      stx.lock_time = tx.lock_time ∧
      clearWitnesses stx = clearWitnesses tx ∧
      (∀ j, j < k → stx.input[j]? = tx.input[j]?) ∧
      (∀ j, k + rest.length ≤ j → stx.input[j]? = tx.input[j]?) ∧
      (∀ i u t, rest[i]? = some u → tx.input[k + i]? = some t →
        stx.input[k + i]? = some { t with witness := t.witness ++
          [c.signEcdsa sk (c.sighash (clearWitnesses tx) (k + i)
              w.address.script_pubkey u.value) ++ [sighashAllByte],
           c.pubkeyBytes sk] }) := by
  intro rest
  induction rest with
  | nil =>
    intro tx k stx h
    simp only [sign_inputs] at h
    have htx : tx = stx := (Except.ok.injEq _ _).mp h
    subst htx
    exact ⟨rfl, rfl, rfl, rfl, rfl, fun j _ => rfl, fun j _ => rfl,
      fun i u t hi => by simp at hi⟩
  | cons u rest ih =>
    intro tx k stx h
    simp only [sign_inputs] at h
    split at h
    case isFalse hk => exact absurd h (by simp)
    case isTrue hk =>
      obtain ⟨t0, ht0⟩ : ∃ t0, tx.input[k]? = some t0 :=
        List.getElem?_eq_some.mpr ⟨hk, rfl⟩ ▸ ⟨tx.input[k], rfl⟩
      obtain ⟨ihlen, ihout, ihver, ihlock, ihclear, ihlo, ihhi, ihmod⟩ :=
        ih _ (k + 1) stx h
      have len2 := pushWitness_length (pushWitness tx k
        (c.signEcdsa sk (c.sighash (clearWitnesses tx) k
          w.address.script_pubkey u.value) ++ [sighashAllByte])) k
        (c.pubkeyBytes sk)
      have len1 := pushWitness_length tx k
        (c.signEcdsa sk (c.sighash (clearWitnesses tx) k
          w.address.script_pubkey u.value) ++ [sighashAllByte])
      have clear2 := clearWitnesses_pushWitness (pushWitness tx k
        (c.signEcdsa sk (c.sighash (clearWitnesses tx) k
          w.address.script_pubkey u.value) ++ [sighashAllByte])) k
        (c.pubkeyBytes sk)
      have clear1 := clearWitnesses_pushWitness tx k
        (c.signEcdsa sk (c.sighash (clearWitnesses tx) k
          w.address.script_pubkey u.value) ++ [sighashAllByte])
      have out2 := pushWitness_output (pushWitness tx k
        (c.signEcdsa sk (c.sighash (clearWitnesses tx) k
          w.address.script_pubkey u.value) ++ [sighashAllByte])) k
        (c.pubkeyBytes sk)
      have out1 := pushWitness_output tx k
        (c.signEcdsa sk (c.sighash (clearWitnesses tx) k
          w.address.script_pubkey u.value) ++ [sighashAllByte])
      have ver2 := pushWitness_version (pushWitness tx k
        (c.signEcdsa sk (c.sighash (clearWitnesses tx) k
          w.address.script_pubkey u.value) ++ [sighashAllByte])) k
        (c.pubkeyBytes sk)
      have ver1 := pushWitness_version tx k
        (c.signEcdsa sk (c.sighash (clearWitnesses tx) k
          w.address.script_pubkey u.value) ++ [sighashAllByte])
      have lock2 := pushWitness_lock_time (pushWitness tx k
        (c.signEcdsa sk (c.sighash (clearWitnesses tx) k
          w.address.script_pubkey u.value) ++ [sighashAllByte])) k
        (c.pubkeyBytes sk)
      have lock1 := pushWitness_lock_time tx k
        (c.signEcdsa sk (c.sighash (clearWitnesses tx) k
          w.address.script_pubkey u.value) ++ [sighashAllByte])
      have hne2 : ∀ j, j ≠ k →
          (pushWitness (pushWitness tx k
            (c.signEcdsa sk (c.sighash (clearWitnesses tx) k
              w.address.script_pubkey u.value) ++ [sighashAllByte])) k
            (c.pubkeyBytes sk)).input[j]? = tx.input[j]? := by
        intro j hj
        rw [pushWitness_getElem_ne _ _ _ _ hj, pushWitness_getElem_ne _ _ _ _ hj]
      have hkk : (pushWitness (pushWitness tx k
          (c.signEcdsa sk (c.sighash (clearWitnesses tx) k
            w.address.script_pubkey u.value) ++ [sighashAllByte])) k
          (c.pubkeyBytes sk)).input[k]? =
          some { t0 with witness := t0.witness ++
            [c.signEcdsa sk (c.sighash (clearWitnesses tx) k
              w.address.script_pubkey u.value) ++ [sighashAllByte],
             c.pubkeyBytes sk] } := by
        rw [pushWitness_getElem_eq _ _ _
          { t0 with witness := t0.witness ++
            [c.signEcdsa sk (c.sighash (clearWitnesses tx) k
              w.address.script_pubkey u.value) ++ [sighashAllByte]] }
          (pushWitness_getElem_eq _ _ _ _ ht0)]
        simp
      refine ⟨ihlen.trans (len2.trans len1), ihout.trans (out2.trans out1),
        ihver.trans (ver2.trans ver1), ihlock.trans (lock2.trans lock1),
        ihclear.trans (clear2.trans clear1), ?_, ?_, ?_⟩
      · intro j hj
        rw [ihlo j (Nat.lt_succ_of_lt hj), hne2 j (Nat.ne_of_lt hj)]
      · intro j hj
        have hj' : k + 1 + rest.length ≤ j := by
          simp only [List.length_cons] at hj
          omega
        rw [ihhi j hj', hne2 j (by omega)]
      · intro i u' t hi ht
        cases i with
        | zero =>
          have hu : u' = u := by
            simp only [List.getElem?_cons_zero, Option.some.injEq] at hi
            exact hi.symm
          subst hu
          have ht' : t = t0 := by
            rw [Nat.add_zero] at ht
            rw [ht0] at ht
            exact ((Option.some.injEq _ _).mp ht).symm
          subst ht'
          rw [Nat.add_zero]
          rw [ihlo k (Nat.lt_succ_self k), hkk]
        | succ i =>
          have hi' : rest[i]? = some u' := by
            simpa using hi
          have ht' : (pushWitness (pushWitness tx k
              (c.signEcdsa sk (c.sighash (clearWitnesses tx) k
                w.address.script_pubkey u.value) ++ [sighashAllByte])) k
              (c.pubkeyBytes sk)).input[k + 1 + i]? = some t := by
            rw [hne2 (k + 1 + i) (by omega)]
            rw [show k + 1 + i = k + (i + 1) by omega]
            exact ht
          have := ihmod i u' t hi' ht'
          rw [clear2.trans clear1] at this
          rw [show k + (i + 1) = k + 1 + i by omega]
          exact this

/-- C4: for a transaction whose inputs start unsigned (empty witnesses, one
input per UTXO — the shape the builder hands over), a successful `sign_tx`
leaves the input count equal to the UTXO count and sets input `i`'s witness
to exactly the two-element stack [DER signature + SIGHASH_ALL byte,
33-byte compressed public key], the signature being over the sighash at
index `i` computed against `utxos[i]`'s value (the positional contract). -/
theorem C4_sign_witness_structure
    (c : Crypto) (w : Wallet) (tx : Transaction) (utxos : List Utxo)
    (secret_key : List Nat) (stx : Transaction)
    (hsk : c.parseSecretKey w.wif_key = some secret_key)
    (hpk : (c.pubkeyBytes secret_key).length = 33)
    (hlen : tx.input.length = utxos.length)
    (hempty : ∀ i ∈ tx.input, i.witness = [])
    (hok : sign_tx c w tx utxos = Except.ok stx) :
    stx.input.length = utxos.length ∧
    (∀ (i : Nat) (u : Utxo) (t : TxIn),
      utxos[i]? = some u → tx.input[i]? = some t →
      stx.input[i]? = some { t with witness :=
        [c.signEcdsa secret_key (c.sighash (clearWitnesses tx) i
            w.address.script_pubkey u.value) ++ [sighashAllByte],
         c.pubkeyBytes secret_key] }) ∧
    (c.pubkeyBytes secret_key).length = 33 := by
  simp only [sign_tx, hsk] at hok
  obtain ⟨slen, _, _, _, _, _, _, smod⟩ :=
    sign_inputs_ok_spec c w secret_key utxos tx 0 stx hok
  refine ⟨slen.trans hlen, ?_, hpk⟩
  intro i u t hu ht
  have hwit : t.witness = [] :=
    hempty t (List.getElem?_mem ht)
  have := smod i u t hu (by simpa using ht)
  rw [Nat.zero_add] at this
  rw [this, hwit]
  rfl

/-- C4 witness: signing the Scenario-1 built transaction (one input, one
UTXO) under the schematic crypto oracle yields the expected two-element
witness stack. -/
theorem C4_sign_witness_structure_witness :
    stxSignedEx.input.length = [utxoEx].length ∧
    (∀ (i : Nat) (u : Utxo) (t : TxIn),
      [utxoEx][i]? = some u → txBuiltEx.input[i]? = some t →
      stxSignedEx.input[i]? = some { t with witness :=
        [cryptoEx.signEcdsa [7] (cryptoEx.sighash (clearWitnesses txBuiltEx)
            i walletEx.address.script_pubkey u.value) ++ [sighashAllByte],
         cryptoEx.pubkeyBytes [7]] }) ∧
    (cryptoEx.pubkeyBytes [7]).length = 33 :=
  C4_sign_witness_structure cryptoEx walletEx txBuiltEx [utxoEx] [7]
    stxSignedEx (by rfl) (by decide) (by rfl) (by decide) (by rfl)

/-- Shape of a successful `from_private_key`: the wallet keeps the caller's
network, stores the raw key string, and its address is `p2wpkh` applied at
the hard-coded `Network.testnet`. -/
theorem from_private_key_ok (c : Crypto) (key : String) (net : Network)
    (w : Wallet) (h : from_private_key c key net = some w) :
    w.network = net ∧ w.wif_key = key ∧
    ∃ sk pk, c.parseSecretKey key = some sk ∧
      c.compressedPublicKey sk = some pk ∧
      w.address = c.p2wpkh pk Network.testnet := by
  simp only [from_private_key] at h
  split at h
  · exact absurd h (by simp)
  next sk hsk =>
    split at h
    · exact absurd h (by simp)
    next pk hpk =>
      injection h with h2
      subst h2
      exact ⟨rfl, rfl, sk, pk, hsk, hpk, rfl⟩

/-- A successful `from_mnemonic` is a successful `from_private_key` on the
derived key, at the same network argument. -/
theorem from_mnemonic_ok (c : Crypto) (phrase : String) (net : Network)
    (w : Wallet) (h : from_mnemonic c phrase net = some w) :
    ∃ key, from_private_key c key net = some w := by
  simp only [from_mnemonic] at h
  split at h
  · exact absurd h (by simp)
  next m hm =>
    split at h
    · exact absurd h (by simp)
    next k hk => exact ⟨_, h⟩

/-- A successful `create` is a successful `from_mnemonic` on the generated
phrase, at the same network argument. -/
theorem create_ok (c : Crypto) (entropy : List Nat) (net : Network)
    (w : Wallet) (h : create c entropy net = some w) :
    ∃ phrase, from_mnemonic c phrase net = some w := by
  simp only [create] at h
  split at h
  · exact absurd h (by simp)
  next m hm => exact ⟨_, h⟩

/-- Signing never changes the outputs (it only fills input witnesses). -/
theorem sign_tx_ok_outputs (c : Crypto) (w : Wallet) (tx : Transaction)
    (utxos : List Utxo) (stx : Transaction)
    (h : sign_tx c w tx utxos = Except.ok stx) : stx.output = tx.output := by
  simp only [sign_tx] at h
  split at h
  · exact absurd h (by simp)
  next sk hsk =>
    exact (sign_inputs_ok_spec c w sk utxos tx 0 stx h).2.1

/-- C3: every constructor (`from_private_key`, `from_mnemonic`, `create`)
stores, whatever network it was given, the P2WPKH address derived at
`Network.testnet` while keeping that given network in the `network` field;
and this one stored address is the one every operation uses: the balance
and UTXO fetches depend on their oracle only at this address's URLs, the
change output of every built transaction pays this address's script, each
signature is over a sighash parameterized by this address's script, and the
transaction handed to broadcast by `send` still pays its change to this
address's script. -/
theorem C3_testnet_address_everywhere :
    (∀ (c : Crypto) (key : String) (net : Network) (w : Wallet),
      from_private_key c key net = some w →
      w.network = net ∧ ∃ pk, w.address = c.p2wpkh pk Network.testnet) ∧
    (∀ (c : Crypto) (phrase : String) (net : Network) (w : Wallet),
      from_mnemonic c phrase net = some w →
      w.network = net ∧ ∃ pk, w.address = c.p2wpkh pk Network.testnet) ∧
    (∀ (c : Crypto) (entropy : List Nat) (net : Network) (w : Wallet),
      create c entropy net = some w →
      w.network = net ∧ ∃ pk, w.address = c.p2wpkh pk Network.testnet) ∧
    (∀ (w : Wallet) (h1 h2 : String → HttpOutcome BalanceResponse),
      h1 (balance_url w) = h2 (balance_url w) →
      get_balance h1 w = get_balance h2 w) ∧
    (∀ (w : Wallet) (h1 h2 : String → HttpOutcome (List Utxo)),
      h1 (utxo_url w) = h2 (utxo_url w) →
      fetch_utxos h1 w = fetch_utxos h2 w) ∧
    (∀ (feeHttp : String → HttpOutcome MempoolFeeResponse)
        (parseAddr : String → Option UncheckedAddress) (w : Wallet)
        (to_addr : String) (amount : Nat) (utxos : List Utxo)
        (tx : Transaction),
      build_tx feeHttp parseAddr w to_addr amount utxos = Except.ok tx →
      ∃ o : TxOut, tx.output[1]? = some o ∧
        o.script_pubkey = w.address.script_pubkey) ∧
    (∀ (c : Crypto) (w : Wallet) (tx : Transaction) (utxos : List Utxo)
        (secret_key : List Nat) (stx : Transaction) (i : Nat) (u : Utxo)
        (t : TxIn),
      c.parseSecretKey w.wif_key = some secret_key →
      sign_tx c w tx utxos = Except.ok stx →
      utxos[i]? = some u → tx.input[i]? = some t →
      stx.input[i]? = some { t with witness := t.witness ++
        [c.signEcdsa secret_key (c.sighash (clearWitnesses tx) i
            w.address.script_pubkey u.value) ++ [sighashAllByte],
         c.pubkeyBytes secret_key] }) ∧
    (∀ (c : Crypto) (utxoHttp : String → HttpOutcome (List Utxo))
        (feeHttp : String → HttpOutcome MempoolFeeResponse)
        (parseAddr : String → Option UncheckedAddress)
        (post : String → String → PostOutcome) (w : Wallet)
        (to_addr : String) (amount : Nat) (utxos : List Utxo)
        (tx stx : Transaction),
      fetch_utxos utxoHttp w = Except.ok utxos →
      build_tx feeHttp parseAddr w to_addr amount utxos = Except.ok tx →
      sign_tx c w tx utxos = Except.ok stx →
      send c utxoHttp feeHttp parseAddr post w to_addr amount =
        broadcast c post w stx ∧
      ∃ o : TxOut, stx.output[1]? = some o ∧
        o.script_pubkey = w.address.script_pubkey) := by
  have hbuild : ∀ (feeHttp : String → HttpOutcome MempoolFeeResponse)
      (parseAddr : String → Option UncheckedAddress) (w : Wallet)
      (to_addr : String) (amount : Nat) (utxos : List Utxo)
      (tx : Transaction),
      build_tx feeHttp parseAddr w to_addr amount utxos = Except.ok tx →
      ∃ o : TxOut, tx.output[1]? = some o ∧
        o.script_pubkey = w.address.script_pubkey := by
    intro feeHttp parseAddr w to_addr amount utxos tx h
    obtain ⟨fr, ins, r, _, _, _, _, _, htx⟩ :=
      build_tx_ok feeHttp parseAddr w to_addr amount utxos tx h
    subst htx
    exact ⟨_, rfl, rfl⟩
  have hpriv : ∀ (c : Crypto) (key : String) (net : Network) (w : Wallet),
      from_private_key c key net = some w →
      w.network = net ∧ ∃ pk, w.address = c.p2wpkh pk Network.testnet := by
    intro c key net w h
    obtain ⟨hn, _, sk, pk, _, _, ha⟩ := from_private_key_ok c key net w h
    exact ⟨hn, pk, ha⟩
  have hmne : ∀ (c : Crypto) (phrase : String) (net : Network) (w : Wallet),
      from_mnemonic c phrase net = some w →
      w.network = net ∧ ∃ pk, w.address = c.p2wpkh pk Network.testnet := by
    intro c phrase net w h
    obtain ⟨key, hk⟩ := from_mnemonic_ok c phrase net w h
    exact hpriv c key net w hk
  refine ⟨hpriv, hmne, ?_, ?_, ?_, hbuild, ?_, ?_⟩
  · intro c entropy net w h
    obtain ⟨phrase, hp⟩ := create_ok c entropy net w h
    exact hmne c phrase net w hp
  · intro w h1 h2 hagree
    simp only [balance_url] at hagree
    by_cases he : (get_api_url w.network).isEmpty = true
    · simp [get_balance, he]
    · simp only [get_balance]
      rw [if_neg he, if_neg he, hagree]
  · intro w h1 h2 hagree
    simp only [utxo_url] at hagree
    by_cases he : (get_api_url w.network).isEmpty = true
    · simp [fetch_utxos, he]
    · simp only [fetch_utxos]
      rw [if_neg he, if_neg he, hagree]
  · intro c w tx utxos secret_key stx i u t hsk hok hu ht
    simp only [sign_tx, hsk] at hok
    obtain ⟨_, _, _, _, _, _, _, smod⟩ :=
      sign_inputs_ok_spec c w secret_key utxos tx 0 stx hok
    have := smod i u t hu (by simpa using ht)
    rwa [Nat.zero_add] at this
  · intro c utxoHttp feeHttp parseAddr post w to_addr amount utxos tx stx
      h1 h2 h3
    refine ⟨by simp [send, h1, h2, h3], ?_⟩
    have hout := sign_tx_ok_outputs c w tx utxos stx h3
    obtain ⟨o, ho, hos⟩ :=
      hbuild feeHttp parseAddr w to_addr amount utxos tx h2
    exact ⟨o, by rw [hout]; exact ho, hos⟩

end Bitcli
